import Mathlib

/-!
Shallow embedding of the codenames-ai benchmark core
(codenames_bench/env.py, legality.py, agent.py,
codenames_llm_bench/codenames_bench/openai_responses.py, runner.py)
together with theorems settling the spec claims about it.
-/

namespace Codenames

/-- Card type, mirroring the string literals RED, BLUE, NEUTRAL, ASSASSIN in types.py. -/
inductive CardType where
  | RED
  | BLUE
  | NEUTRAL
  | ASSASSIN
deriving DecidableEq, Repr

/-- Team, mirroring the string literals RED, BLUE. -/
inductive Team where
  | RED
  | BLUE
deriving DecidableEq, Repr

/-- The card colour of a team; in the Python code a team IS the string RED or BLUE,
compared directly with card-type strings. -/
def Team.card : Team → CardType
  | .RED => .RED
  | .BLUE => .BLUE

/-- env.py other_team. -/
def other_team : Team → Team
  | .RED => .BLUE
  | .BLUE => .RED

/-- boards.py Board (board_id omitted from gameplay-relevant fields is kept for fidelity). -/
structure Board where
  board_id : String
  words : List String
  key : List CardType
  starting_team : Team
deriving Repr

/-- env.py GameState. -/
structure GameState where
  board : Board
  revealed : List Bool
  current_team : Team
deriving Repr

/-- env.py GameState.remaining: count unrevealed cards of the team's colour. -/
def remainingOf (key : List CardType) (revealed : List Bool) (team : Team) : Nat :=
  ((key.zip revealed).filter (fun p => !p.2 && (p.1 = team.card))).length

def GameState.remaining (s : GameState) (team : Team) : Nat :=
  remainingOf s.board.key s.revealed team

/-- env.py GameState.unrevealed_words. -/
def GameState.unrevealed_words (s : GameState) : List String :=
  ((s.board.words.zip s.revealed).filter (fun p => !p.2)).map (·.1)

/-- env.py AppliedGuess. -/
structure AppliedGuess where
  word : String
  index : Nat
  card_type : CardType
deriving DecidableEq, Repr

/-- The five stop reasons of env.py TurnOutcome.stopped_reason. -/
inductive StopReason where
  | stop
  | limit
  | wrong
  | assassin
  | invalid_or_repeat
deriving DecidableEq, Repr

/-- env.py TurnOutcome. -/
structure TurnOutcome where
  team : Team
  clue : String
  number : Int
  max_allowed : Nat
  guesses : List String
  applied : List AppliedGuess
  stopped_reason : StopReason
  game_over : Bool
  winner : Option Team
  loser : Option Team
deriving Repr

/-- Python str.upper() restricted to ASCII case mapping, as a computable map over
the character list of the string. -/
def pyUpper (s : String) : String := String.mk (s.data.map Char.toUpper)

/-- Python str.strip(): drop leading and trailing whitespace. -/
def pyStrip (s : String) : String :=
  String.mk (((s.data.dropWhile Char.isWhitespace).reverse.dropWhile Char.isWhitespace).reverse)

/-- The Python normalisation guess.strip().upper() applied to each raw guess. -/
def normGuess (s : String) : String := pyUpper (pyStrip s)

/-- Result of the guess-iteration loop inside apply_turn: the final reveal bitmap
plus the outcome fields accumulated by the loop. -/
structure LoopResult where
  revealed : List Bool
  applied : List AppliedGuess
  stopped_reason : StopReason
  game_over : Bool
  winner : Option Team
  loser : Option Team
deriving Repr

/-- The for-loop of env.py apply_turn, one constructor case per guess.
Arguments j and seen mirror the enumerate index and the seen set;
revealed is the running reveal bitmap (mutated in place in Python). -/
def applyTurnLoop (words : List String) (key : List CardType) (team : Team)
    (enforce : Bool) (max_allowed : Nat) :
    List String → Nat → List String → List Bool → LoopResult
  | [], _, _, revealed =>
    { revealed := revealed, applied := [], stopped_reason := .stop,
      game_over := false, winner := none, loser := none }
  | guess :: rest, j, seen, revealed =>
    if enforce ∧ max_allowed ≤ j then
      { revealed := revealed, applied := [], stopped_reason := .limit,
        game_over := false, winner := none, loser := none }
    else
      let g := normGuess guess
      if g = "" ∨ g ∈ seen then
        { revealed := revealed, applied := [], stopped_reason := .invalid_or_repeat,
          game_over := false, winner := none, loser := none }
      else if g ∉ words then
        { revealed := revealed, applied := [], stopped_reason := .invalid_or_repeat,
          game_over := false, winner := none, loser := none }
      else
        let idx := words.indexOf g
        if revealed.getD idx false then
          { revealed := revealed, applied := [], stopped_reason := .invalid_or_repeat,
            game_over := false, winner := none, loser := none }
        else
          let revealed' := revealed.set idx true
          let ctype := key.getD idx .NEUTRAL
          let ag : AppliedGuess := { word := g, index := idx, card_type := ctype }
          if ctype = .ASSASSIN then
            { revealed := revealed', applied := [ag], stopped_reason := .assassin,
              game_over := true, winner := some (other_team team), loser := some team }
          else if ctype ≠ team.card then
            if remainingOf key revealed' (other_team team) = 0 then
              { revealed := revealed', applied := [ag], stopped_reason := .wrong,
                game_over := true, winner := some (other_team team), loser := some team }
            else
              { revealed := revealed', applied := [ag], stopped_reason := .wrong,
                game_over := false, winner := none, loser := none }
          else if remainingOf key revealed' team = 0 then
            { revealed := revealed', applied := [ag], stopped_reason := .stop,
              game_over := true, winner := some team, loser := some (other_team team) }
          else
            let r := applyTurnLoop words key team enforce max_allowed rest (j + 1)
              (g :: seen) revealed'
            { r with applied := ag :: r.applied }

/-- env.py apply_turn. Returns the mutated state and the TurnOutcome.
max_allowed is max(0, number + 1); the loop starts at index 0 with an empty
seen set on the state's reveal bitmap. -/
def apply_turn (state : GameState) (team : Team) (clue : String) (number : Int)
    (guesses : List String) (enforce_max_allowed : Bool := true) :
    GameState × TurnOutcome :=
  let max_allowed := (number + 1).toNat
  let r := applyTurnLoop state.board.words state.board.key team enforce_max_allowed
    max_allowed guesses 0 [] state.revealed
  ({ board := state.board, revealed := r.revealed, current_team := state.current_team },
   { team := team, clue := clue, number := number, max_allowed := max_allowed,
     guesses := guesses, applied := r.applied, stopped_reason := r.stopped_reason,
     game_over := r.game_over, winner := r.winner, loser := r.loser })

/-- env.py init_game_state. -/
def init_game_state (board : Board) : GameState :=
  { board := board, revealed := List.replicate 25 false, current_team := board.starting_team }

/-- A team's own colour is never the assassin colour. -/
theorem Team.card_ne_assassin (t : Team) : t.card ≠ CardType.ASSASSIN := by
  cases t <;> simp [Team.card]

/-- Loop invariant behind claim C1: if some applied guess of the loop revealed the
assassin then the loop stopped with reason assassin, the game is over with the
opponent winning, and the assassin reveal is the last applied guess. -/
theorem applyTurnLoop_assassin_spec (words : List String) (key : List CardType)
    (team : Team) (enforce : Bool) (ma : Nat) :
    ∀ (guesses : List String) (j : Nat) (seen : List String) (revealed : List Bool)
      (r : LoopResult),
      applyTurnLoop words key team enforce ma guesses j seen revealed = r →
      (∃ a ∈ r.applied, a.card_type = CardType.ASSASSIN) →
      r.stopped_reason = .assassin ∧ r.game_over = true ∧
      r.winner = some (other_team team) ∧ r.loser = some team ∧
      ∃ pre a, r.applied = pre ++ [a] ∧ a.card_type = CardType.ASSASSIN ∧
        ∀ b ∈ pre, b.card_type ≠ CardType.ASSASSIN := by
  intro guesses
  induction guesses with
  | nil =>
    intro j seen revealed r hr hex
    subst hr
    simp [applyTurnLoop] at hex
  | cons guess rest ih =>
    intro j seen revealed r hr hex
    simp only [applyTurnLoop] at hr
    split at hr
    · subst hr; simp at hex
    · split at hr
      · subst hr; simp at hex
      · split at hr
        · subst hr; simp at hex
        · split at hr
          · subst hr; simp at hex
          · split at hr
            · -- assassin reveal
              subst hr
              rename_i hct
              refine ⟨rfl, rfl, rfl, rfl, [], _, rfl, hct, by simp⟩
            · split at hr
              · split at hr
                · -- wrong reveal completing the opponent set
                  subst hr
                  rename_i hct _ _
                  obtain ⟨a, ha, hA⟩ := hex
                  simp only [List.mem_singleton] at ha
                  subst ha
                  exact absurd hA hct
                · -- wrong reveal, game continues
                  subst hr
                  rename_i hct _ _
                  obtain ⟨a, ha, hA⟩ := hex
                  simp only [List.mem_singleton] at ha
                  subst ha
                  exact absurd hA hct
              · split at hr
                · -- team reveal finishing the team's own set
                  subst hr
                  rename_i hct _ _
                  obtain ⟨a, ha, hA⟩ := hex
                  simp only [List.mem_singleton] at ha
                  subst ha
                  exact absurd hA hct
                · -- correct reveal, loop continues
                  subst hr
                  rename_i hct _ _
                  obtain ⟨a, ha, hA⟩ := hex
                  rcases List.mem_cons.mp ha with rfl | hmem
                  · exact absurd hA hct
                  · obtain ⟨h1, h2, h3, h4, pre, a', happ, ha', hpre⟩ :=
                      ih _ _ _ _ rfl ⟨a, hmem, hA⟩
                    refine ⟨h1, h2, h3, h4, ?_⟩
                    refine ⟨⟨normGuess guess, List.indexOf (normGuess guess) words,
                      key.getD (List.indexOf (normGuess guess) words) .NEUTRAL⟩ :: pre,
                      a', ?_, ha', ?_⟩
                    · show _ :: _ = _
                      rw [happ]
                      rfl
                    · intro b hb
                      rcases List.mem_cons.mp hb with rfl | hb
                      · exact hct
                      · exact hpre b hb

/-- C1: for every apply_turn call in which some iterated guess reveals a card of
type ASSASSIN, the outcome has stopped_reason assassin, game_over true, winner the
opponent, loser the acting team, the applied list ends with the assassin reveal,
and no earlier applied guess is an assassin reveal. -/
theorem apply_turn_assassin_ends_game (state : GameState) (team : Team) (clue : String)
    (number : Int) (guesses : List String)
    (hx : ∃ a ∈ (apply_turn state team clue number guesses).2.applied,
        a.card_type = CardType.ASSASSIN) :
    (apply_turn state team clue number guesses).2.stopped_reason = .assassin ∧
    (apply_turn state team clue number guesses).2.game_over = true ∧
    (apply_turn state team clue number guesses).2.winner = some (other_team team) ∧
    (apply_turn state team clue number guesses).2.loser = some team ∧
    ∃ pre a, (apply_turn state team clue number guesses).2.applied = pre ++ [a] ∧
      a.card_type = CardType.ASSASSIN ∧ ∀ b ∈ pre, b.card_type ≠ CardType.ASSASSIN :=
  applyTurnLoop_assassin_spec state.board.words state.board.key team true
    ((number + 1).toNat) guesses 0 [] state.revealed _ rfl hx

/-- Loop invariant behind claim C2: if some applied guess of the loop revealed a
card that is neither the assassin nor the acting team's colour, the loop stopped
with reason wrong, that reveal is the last applied guess (all earlier ones are
team-coloured), and if the opponent has no remaining cards on the resulting
bitmap the game ended with the opponent winning. -/
theorem applyTurnLoop_wrong_spec (words : List String) (key : List CardType)
    (team : Team) (enforce : Bool) (ma : Nat) :
    ∀ (guesses : List String) (j : Nat) (seen : List String) (revealed : List Bool)
      (r : LoopResult),
      applyTurnLoop words key team enforce ma guesses j seen revealed = r →
      (∃ a ∈ r.applied, a.card_type ≠ CardType.ASSASSIN ∧ a.card_type ≠ team.card) →
      r.stopped_reason = .wrong ∧
      (∃ pre a, r.applied = pre ++ [a] ∧ a.card_type ≠ CardType.ASSASSIN ∧
        a.card_type ≠ team.card ∧ ∀ b ∈ pre, b.card_type = team.card) ∧
      (remainingOf key r.revealed (other_team team) = 0 →
        r.game_over = true ∧ r.winner = some (other_team team) ∧ r.loser = some team) := by
  intro guesses
  induction guesses with
  | nil =>
    intro j seen revealed r hr hex
    subst hr
    simp [applyTurnLoop] at hex
  | cons guess rest ih =>
    intro j seen revealed r hr hex
    simp only [applyTurnLoop] at hr
    split at hr
    · subst hr; simp at hex
    · split at hr
      · subst hr; simp at hex
      · split at hr
        · subst hr; simp at hex
        · split at hr
          · subst hr; simp at hex
          · split at hr
            · -- assassin reveal: contradicts the wrong-card hypothesis
              subst hr
              rename_i hct
              obtain ⟨a, ha, hA, _⟩ := hex
              simp only [List.mem_singleton] at ha
              subst ha
              exact absurd hct hA
            · split at hr
              · -- wrong reveal
                split at hr
                · -- opponent set completed: game over for the opponent
                  subst hr
                  refine ⟨rfl, ⟨[], _, rfl, by assumption, by assumption, by simp⟩,
                    fun _ => ⟨rfl, rfl, rfl⟩⟩
                · -- opponent still has cards: turn merely ends
                  subst hr
                  rename_i hrem
                  refine ⟨rfl, ⟨[], _, rfl, by assumption, by assumption, by simp⟩,
                    fun h => absurd h hrem⟩
              · split at hr
                · -- team reveal finishing the team's own set: reason is stop
                  subst hr
                  rename_i hne _
                  obtain ⟨a, ha, _, hT⟩ := hex
                  simp only [List.mem_singleton] at ha
                  subst ha
                  exact absurd (not_not.mp hne) hT
                · -- correct reveal, loop continues
                  subst hr
                  rename_i hne _
                  obtain ⟨a, ha, hA, hT⟩ := hex
                  rcases List.mem_cons.mp ha with rfl | hmem
                  · exact absurd (not_not.mp hne) hT
                  · obtain ⟨h1, ⟨pre, a', happ, ha1, ha2, hpre⟩, h3⟩ :=
                      ih _ _ _ _ rfl ⟨a, hmem, hA, hT⟩
                    refine ⟨h1, ⟨⟨normGuess guess, List.indexOf (normGuess guess) words,
                      key.getD (List.indexOf (normGuess guess) words) .NEUTRAL⟩ :: pre,
                      a', ?_, ha1, ha2, ?_⟩, h3⟩
                    · show _ :: _ = _
                      rw [happ]
                      rfl
                    · intro b hb
                      rcases List.mem_cons.mp hb with rfl | hb
                      · exact not_not.mp hne
                      · exact hpre b hb

/-- C2: for every apply_turn call in which a processed guess reveals a card whose
type is neither ASSASSIN nor the guessing team's colour, the outcome has
stopped_reason wrong, that reveal is the last applied guess, and if the reveal
left the opponent with zero remaining cards then the game is over with the
opponent winning and the acting team losing. -/
theorem apply_turn_wrong_stops (state : GameState) (team : Team) (clue : String)
    (number : Int) (guesses : List String)
    (hx : ∃ a ∈ (apply_turn state team clue number guesses).2.applied,
        a.card_type ≠ CardType.ASSASSIN ∧ a.card_type ≠ team.card) :
    (apply_turn state team clue number guesses).2.stopped_reason = .wrong ∧
    (∃ pre a, (apply_turn state team clue number guesses).2.applied = pre ++ [a] ∧
      a.card_type ≠ CardType.ASSASSIN ∧ a.card_type ≠ team.card ∧
      ∀ b ∈ pre, b.card_type = team.card) ∧
    (remainingOf state.board.key (apply_turn state team clue number guesses).1.revealed
        (other_team team) = 0 →
      (apply_turn state team clue number guesses).2.game_over = true ∧
      (apply_turn state team clue number guesses).2.winner = some (other_team team) ∧
      (apply_turn state team clue number guesses).2.loser = some team) :=
  applyTurnLoop_wrong_spec state.board.words state.board.key team true
    ((number + 1).toNat) guesses 0 [] state.revealed _ rfl hx

/-- Loop invariant behind claim C3, part one: with the limit enforced, the loop
starting at index j applies at most ma - j guesses. -/
theorem applyTurnLoop_length_le (words : List String) (key : List CardType)
    (team : Team) (ma : Nat) :
    ∀ (guesses : List String) (j : Nat) (seen : List String) (revealed : List Bool)
      (r : LoopResult),
      applyTurnLoop words key team true ma guesses j seen revealed = r →
      r.applied.length ≤ ma - j := by
  intro guesses
  induction guesses with
  | nil => intro j seen revealed r hr; subst hr; simp [applyTurnLoop]
  | cons guess rest ih =>
    intro j seen revealed r hr
    simp only [applyTurnLoop] at hr
    split at hr
    · subst hr; simp
    · rename_i hj
      have hj' : j < ma := by
        by_contra hcon
        exact hj ⟨by trivial, Nat.le_of_not_lt hcon⟩
      split at hr
      · subst hr; simp
      · split at hr
        · subst hr; simp
        · split at hr
          · subst hr; simp
          · split at hr
            · subst hr; simp; omega
            · split at hr
              · split at hr
                · subst hr; simp; omega
                · subst hr; simp; omega
              · split at hr
                · subst hr; simp; omega
                · have hrec := ih (j + 1) (normGuess guess :: seen)
                    (revealed.set (List.indexOf (normGuess guess) words) true) _ rfl
                  subst hr
                  simp only [List.length_cons]
                  omega

/-- Loop invariant behind claim C3, part two: if the loop stopped with reason
limit then it applied exactly ma - j guesses and had strictly more guesses left. -/
theorem applyTurnLoop_limit_spec (words : List String) (key : List CardType)
    (team : Team) (ma : Nat) :
    ∀ (guesses : List String) (j : Nat) (seen : List String) (revealed : List Bool)
      (r : LoopResult),
      applyTurnLoop words key team true ma guesses j seen revealed = r →
      r.stopped_reason = .limit → j ≤ ma →
      r.applied.length = ma - j ∧ ma - j < guesses.length := by
  intro guesses
  induction guesses with
  | nil =>
    intro j seen revealed r hr hlim hj
    subst hr
    simp [applyTurnLoop] at hlim
  | cons guess rest ih =>
    intro j seen revealed r hr hlim hj
    simp only [applyTurnLoop] at hr
    split at hr
    · rename_i hma
      subst hr
      simp only [List.length_nil, List.length_cons]
      omega
    · rename_i hma
      have hj' : j < ma := by
        by_contra hcon
        exact hma ⟨by trivial, Nat.le_of_not_lt hcon⟩
      split at hr
      · subst hr; simp at hlim
      · split at hr
        · subst hr; simp at hlim
        · split at hr
          · subst hr; simp at hlim
          · split at hr
            · subst hr; simp at hlim
            · split at hr
              · split at hr
                · subst hr; simp at hlim
                · subst hr; simp at hlim
              · split at hr
                · subst hr; simp at hlim
                · have hrec := ih (j + 1) (normGuess guess :: seen)
                    (revealed.set (List.indexOf (normGuess guess) words) true) _ rfl
                  subst hr
                  obtain ⟨h1, h2⟩ := hrec hlim (by omega)
                  simp only [List.length_cons]
                  omega

/-- C3: for every apply_turn call, the applied list is no longer than max_allowed
(which is max(0, number + 1)); when the stop reason is limit, exactly max_allowed
guesses were applied and more guesses remained; and the stop reason is one of the
five enumerated values. -/
theorem apply_turn_limit_bound (state : GameState) (team : Team) (clue : String)
    (number : Int) (guesses : List String) :
    (apply_turn state team clue number guesses).2.applied.length ≤
      (apply_turn state team clue number guesses).2.max_allowed ∧
    ((apply_turn state team clue number guesses).2.stopped_reason = .limit →
      (apply_turn state team clue number guesses).2.applied.length =
        (apply_turn state team clue number guesses).2.max_allowed ∧
      (apply_turn state team clue number guesses).2.max_allowed < guesses.length) ∧
    ((apply_turn state team clue number guesses).2.stopped_reason = .stop ∨
     (apply_turn state team clue number guesses).2.stopped_reason = .limit ∨
     (apply_turn state team clue number guesses).2.stopped_reason = .wrong ∨
     (apply_turn state team clue number guesses).2.stopped_reason = .assassin ∨
     (apply_turn state team clue number guesses).2.stopped_reason = .invalid_or_repeat) := by
  refine ⟨?_, ?_, ?_⟩
  · simpa using applyTurnLoop_length_le state.board.words state.board.key team
      ((number + 1).toNat) guesses 0 [] state.revealed _ rfl
  · intro h
    simpa using applyTurnLoop_limit_spec state.board.words state.board.key team
      ((number + 1).toNat) guesses 0 [] state.revealed _ rfl h (Nat.zero_le _)
  · cases hsr : (apply_turn state team clue number guesses).2.stopped_reason <;> simp

/-- Reveal bitmaps only grow: a position holding true still holds true after set
of any position to true. -/
theorem getD_set_true_mono (rv : List Bool) (i k : Nat)
    (h : rv.getD k false = true) : (rv.set i true).getD k false = true := by
  rcases eq_or_ne i k with rfl | hne
  · rcases Nat.lt_or_ge i rv.length with hlt | hge
    · simp [List.getD_eq_getElem?_getD, List.getElem?_set_eq_of_lt _ hlt]
    · rwa [List.set_eq_of_length_le hge]
  · rwa [List.getD_eq_getElem?_getD, List.getElem?_set_ne hne,
      ← List.getD_eq_getElem?_getD]

/-- A position distinct from the set position is unchanged. -/
theorem getD_set_true_ne (rv : List Bool) (i k : Nat) (hne : i ≠ k) :
    (rv.set i true).getD k false = rv.getD k false := by
  rw [List.getD_eq_getElem?_getD, List.getElem?_set_ne hne, ← List.getD_eq_getElem?_getD]

/-- If a position reads false after a set-to-true, it read false before. -/
theorem getD_eq_false_of_set (rv : List Bool) (i k : Nat)
    (h : (rv.set i true).getD k false = false) : rv.getD k false = false := by
  by_contra hcon
  rw [getD_set_true_mono rv i k (by simpa using hcon)] at h
  simp at h

/-- Loop invariant behind claim C4: assuming the reveal bitmap is as long as the
word list, every applied guess has an in-range index that was unrevealed at loop
entry, the applied indices are pairwise distinct, and the final bitmap is the
initial one with exactly the applied indices set to true. -/
theorem applyTurnLoop_frame_spec (words : List String) (key : List CardType)
    (team : Team) (enforce : Bool) (ma : Nat) :
    ∀ (guesses : List String) (j : Nat) (seen : List String) (revealed : List Bool)
      (r : LoopResult),
      applyTurnLoop words key team enforce ma guesses j seen revealed = r →
      revealed.length = words.length →
      (∀ a ∈ r.applied, a.index < words.length) ∧
      (∀ a ∈ r.applied, revealed.getD a.index false = false) ∧
      (r.applied.map (fun a => a.index)).Nodup ∧
      r.revealed = r.applied.foldl (fun rv a => rv.set a.index true) revealed ∧
      r.revealed.length = revealed.length := by
  intro guesses
  induction guesses with
  | nil =>
    intro j seen revealed r hr hlen
    subst hr
    simp [applyTurnLoop]
  | cons guess rest ih =>
    intro j seen revealed r hr hlen
    simp only [applyTurnLoop] at hr
    split at hr
    · subst hr; simp
    · split at hr
      · subst hr; simp
      · split at hr
        · subst hr; simp
        · rename_i hmem
          have hg : normGuess guess ∈ words := not_not.mp hmem
          have hidx : List.indexOf (normGuess guess) words < words.length :=
            List.indexOf_lt_length.mpr hg
          split at hr
          · subst hr; simp
          · rename_i hrev
            have hrev' : revealed.getD (List.indexOf (normGuess guess) words) false = false :=
              Bool.not_eq_true _ ▸ hrev
            split at hr
            · subst hr
              refine ⟨by simpa using hidx, by simpa using hrev', by simp, by simp, by simp⟩
            · split at hr
              · split at hr
                · subst hr
                  refine ⟨by simpa using hidx, by simpa using hrev', by simp, by simp, by simp⟩
                · subst hr
                  refine ⟨by simpa using hidx, by simpa using hrev', by simp, by simp, by simp⟩
              · split at hr
                · subst hr
                  refine ⟨by simpa using hidx, by simpa using hrev', by simp, by simp, by simp⟩
                · -- continue branch: apply the induction hypothesis on the updated bitmap
                  have hlen' :
                      (revealed.set (List.indexOf (normGuess guess) words) true).length =
                        words.length := by
                    simpa using hlen
                  obtain ⟨ih1, ih2, ih3, ih4, ih5⟩ := ih (j + 1) _ _ _ rfl hlen'
                  subst hr
                  have hset :
                      (revealed.set (List.indexOf (normGuess guess) words) true).getD
                        (List.indexOf (normGuess guess) words) false = true := by
                    have : List.indexOf (normGuess guess) words < revealed.length := by
                      omega
                    simp [List.getD_eq_getElem?_getD, List.getElem?_set_eq_of_lt _ this]
                  refine ⟨?_, ?_, ?_, ?_, ?_⟩
                  · intro a ha
                    rcases List.mem_cons.mp ha with rfl | ha
                    · exact hidx
                    · exact ih1 a ha
                  · intro a ha
                    rcases List.mem_cons.mp ha with rfl | ha
                    · exact hrev'
                    · exact getD_eq_false_of_set revealed _ _ (ih2 a ha)
                  · simp only [List.map_cons, List.nodup_cons]
                    refine ⟨?_, ih3⟩
                    intro hin
                    obtain ⟨a, ha, hai⟩ := List.mem_map.mp hin
                    have := ih2 a ha
                    rw [hai, hset] at this
                    simp at this
                  · simpa using ih4
                  · simpa using ih5

/-- Setting one bitmap position to true never increases any team's remaining count. -/
theorem remaining_set_true_le (key : List CardType) :
    ∀ (rv : List Bool) (i : Nat) (t : Team),
      remainingOf key (rv.set i true) t ≤ remainingOf key rv t := by
  suffices h : ∀ (rv : List Bool) (key : List CardType) (i : Nat) (t : Team),
      remainingOf key (rv.set i true) t ≤ remainingOf key rv t from fun rv i t => h rv key i t
  intro rv
  induction rv with
  | nil => intro key i t; simp [remainingOf]
  | cons b bs ihb =>
    intro key i t
    cases key with
    | nil => simp [remainingOf]
    | cons c cs =>
      cases i with
      | zero =>
        simp only [List.set]
        simp only [remainingOf, List.zip_cons_cons, List.filter_cons]
        split <;> split <;> simp_all
      | succ k =>
        simp only [List.set]
        simp only [remainingOf, List.zip_cons_cons, List.filter_cons]
        have := ihb cs k t
        simp only [remainingOf] at this
        split <;> simp <;> omega

/-- Folding set-to-true over the applied list never increases remaining counts. -/
theorem remaining_foldl_le (key : List CardType) :
    ∀ (l : List AppliedGuess) (rv : List Bool) (t : Team),
      remainingOf key (l.foldl (fun rv a => rv.set a.index true) rv) t ≤
        remainingOf key rv t := by
  intro l
  induction l with
  | nil => intro rv t; simp
  | cons a l ihl =>
    intro rv t
    calc remainingOf key ((a :: l).foldl (fun rv a => rv.set a.index true) rv) t
        ≤ remainingOf key (rv.set a.index true) t := by
          simpa using ihl (rv.set a.index true) t
      _ ≤ remainingOf key rv t := remaining_set_true_le key rv a.index t

/-- Folding set-to-true preserves every position already true. -/
theorem foldl_set_true_mono :
    ∀ (l : List AppliedGuess) (rv : List Bool) (i : Nat),
      rv.getD i false = true →
      (l.foldl (fun rv a => rv.set a.index true) rv).getD i false = true := by
  intro l
  induction l with
  | nil => intro rv i h; simpa using h
  | cons a l ihl =>
    intro rv i h
    simpa using ihl (rv.set a.index true) i (getD_set_true_mono rv a.index i h)

/-- Positions not named by any applied guess are unchanged by the fold. -/
theorem foldl_set_true_notmem :
    ∀ (l : List AppliedGuess) (rv : List Bool) (i : Nat),
      (∀ a ∈ l, a.index ≠ i) →
      (l.foldl (fun rv a => rv.set a.index true) rv).getD i false = rv.getD i false := by
  intro l
  induction l with
  | nil => intro rv i _; simp
  | cons a l ihl =>
    intro rv i h
    have h1 : a.index ≠ i := h a (List.mem_cons_self a l)
    have h2 := ihl (rv.set a.index true) i (fun b hb => h b (List.mem_cons_of_mem a hb))
    rw [List.foldl_cons]
    exact h2.trans (getD_set_true_ne rv a.index i h1)

/-- C4: for every apply_turn call on a state whose bitmap matches the word list in
length, the post-state bitmap is the pre-state bitmap with exactly the indices in
outcome.applied set, each applied index was unrevealed before the call and the
indices are pairwise distinct, reveals are monotone, unnamed positions are
untouched, remaining counts do not increase, and the board and current_team
components of the state are unchanged. -/
theorem apply_turn_frame (state : GameState) (team : Team) (clue : String)
    (number : Int) (guesses : List String)
    (hlen : state.revealed.length = state.board.words.length) :
    (apply_turn state team clue number guesses).1.board = state.board ∧
    (apply_turn state team clue number guesses).1.current_team = state.current_team ∧
    (∀ a ∈ (apply_turn state team clue number guesses).2.applied,
      state.revealed.getD a.index false = false) ∧
    ((apply_turn state team clue number guesses).2.applied.map (fun a => a.index)).Nodup ∧
    (apply_turn state team clue number guesses).1.revealed =
      (apply_turn state team clue number guesses).2.applied.foldl
        (fun rv a => rv.set a.index true) state.revealed ∧
    (∀ i, state.revealed.getD i false = true →
      (apply_turn state team clue number guesses).1.revealed.getD i false = true) ∧
    (∀ i, (∀ a ∈ (apply_turn state team clue number guesses).2.applied, a.index ≠ i) →
      (apply_turn state team clue number guesses).1.revealed.getD i false =
        state.revealed.getD i false) ∧
    (∀ t, remainingOf state.board.key (apply_turn state team clue number guesses).1.revealed t ≤
      remainingOf state.board.key state.revealed t) := by
  obtain ⟨h1, h2, h3, h4, h5⟩ := applyTurnLoop_frame_spec state.board.words state.board.key
    team true ((number + 1).toNat) guesses 0 [] state.revealed _ rfl hlen
  refine ⟨rfl, rfl, h2, h3, h4, ?_, ?_, ?_⟩
  · intro i hi
    rw [show (apply_turn state team clue number guesses).1.revealed =
        (apply_turn state team clue number guesses).2.applied.foldl
          (fun rv a => rv.set a.index true) state.revealed from h4]
    exact foldl_set_true_mono _ state.revealed i hi
  · intro i hi
    rw [show (apply_turn state team clue number guesses).1.revealed =
        (apply_turn state team clue number guesses).2.applied.foldl
          (fun rv a => rv.set a.index true) state.revealed from h4]
    exact foldl_set_true_notmem _ state.revealed i hi
  · intro t
    rw [show (apply_turn state team clue number guesses).1.revealed =
        (apply_turn state team clue number guesses).2.applied.foldl
          (fun rv a => rv.set a.index true) state.revealed from h4]
    exact remaining_foldl_le state.board.key _ state.revealed t

/-- Concrete 25-word example board: indices 0-8 RED, 9-16 BLUE, 17-23 NEUTRAL,
24 ASSASSIN, starting team RED. -/
def exBoard : Board :=
  ⟨"board-000000",
   ["APPLE","BEACH","CANDLE","DOG","EAGLE","FOREST","GUITAR","HOUSE","ISLAND",
    "JACKET","KITE","LEMON","MOUNTAIN","NEEDLE","OCEAN","PIANO","QUEEN",
    "RIVER","SNAKE","TIGER","UMBRELLA","VIOLIN","WHALE","XYLOPHONE","YACHT"],
   [.RED, .RED, .RED, .RED, .RED, .RED, .RED, .RED, .RED,
    .BLUE, .BLUE, .BLUE, .BLUE, .BLUE, .BLUE, .BLUE, .BLUE,
    .NEUTRAL, .NEUTRAL, .NEUTRAL, .NEUTRAL, .NEUTRAL, .NEUTRAL, .NEUTRAL,
    .ASSASSIN],
   Team.RED⟩

/-- The freshly initialised game state on the example board. -/
def exState : GameState := init_game_state exBoard

/-- Example mid-game state on the example board in which BLUE has exactly one
unrevealed card left, JACKET at index 9 (indices 10-16 already revealed). -/
def exStateBlueOne : GameState :=
  ⟨exBoard,
   [false, false, false, false, false, false, false, false, false, false,
    true, true, true, true, true, true, true,
    false, false, false, false, false, false, false, false],
   Team.RED⟩

/-- Witness for C2: with BLUE down to one card, RED guessing that card JACKET
stops the turn with reason wrong and ends the game with BLUE winning. -/
theorem apply_turn_wrong_stops_witness :
    (apply_turn exStateBlueOne .RED "BAG" 1 ["JACKET"]).2.stopped_reason = .wrong ∧
    (apply_turn exStateBlueOne .RED "BAG" 1 ["JACKET"]).2.game_over = true ∧
    (apply_turn exStateBlueOne .RED "BAG" 1 ["JACKET"]).2.winner = some (other_team .RED) ∧
    (apply_turn exStateBlueOne .RED "BAG" 1 ["JACKET"]).2.loser = some .RED := by
  have h := apply_turn_wrong_stops exStateBlueOne .RED "BAG" 1 ["JACKET"] (by decide)
  exact ⟨h.1, h.2.2 (by decide)⟩

/-- Witness for C3: with number 1 and three guesses, the turn applies exactly the
two allowed guesses and stops with reason limit before the third. -/
theorem apply_turn_limit_bound_witness :
    (apply_turn exState .RED "FRUIT" 1 ["APPLE", "BEACH", "CANDLE"]).2.applied.length ≤
      (apply_turn exState .RED "FRUIT" 1 ["APPLE", "BEACH", "CANDLE"]).2.max_allowed ∧
    (apply_turn exState .RED "FRUIT" 1 ["APPLE", "BEACH", "CANDLE"]).2.applied.length =
      (apply_turn exState .RED "FRUIT" 1 ["APPLE", "BEACH", "CANDLE"]).2.max_allowed ∧
    (apply_turn exState .RED "FRUIT" 1 ["APPLE", "BEACH", "CANDLE"]).2.max_allowed <
      (["APPLE", "BEACH", "CANDLE"] : List String).length ∧
    (apply_turn exState .RED "FRUIT" 1 ["APPLE", "BEACH", "CANDLE"]).2.stopped_reason =
      .limit := by
  have h := apply_turn_limit_bound exState .RED "FRUIT" 1 ["APPLE", "BEACH", "CANDLE"]
  have hlim : (apply_turn exState .RED "FRUIT" 1 ["APPLE", "BEACH", "CANDLE"]).2.stopped_reason
      = .limit := by decide
  exact ⟨h.1, (h.2.1 hlim).1, (h.2.1 hlim).2, hlim⟩

/-- Witness for C4: a RED reveal followed by a wrong BLUE reveal leaves board and
team untouched, applies two distinct indices, and produces exactly the
corresponding two set-to-true updates of the bitmap. -/
theorem apply_turn_frame_witness :
    (apply_turn exState .RED "MUSIC" 2 ["GUITAR", "OCEAN"]).1.board = exBoard ∧
    (apply_turn exState .RED "MUSIC" 2 ["GUITAR", "OCEAN"]).1.current_team =
      exState.current_team ∧
    ((apply_turn exState .RED "MUSIC" 2 ["GUITAR", "OCEAN"]).2.applied.map
      (fun a => a.index)).Nodup ∧
    (apply_turn exState .RED "MUSIC" 2 ["GUITAR", "OCEAN"]).1.revealed =
      (apply_turn exState .RED "MUSIC" 2 ["GUITAR", "OCEAN"]).2.applied.foldl
        (fun rv a => rv.set a.index true) exState.revealed ∧
    remainingOf exBoard.key (apply_turn exState .RED "MUSIC" 2 ["GUITAR", "OCEAN"]).1.revealed
        Team.RED ≤ remainingOf exBoard.key exState.revealed Team.RED := by
  have h := apply_turn_frame exState .RED "MUSIC" 2 ["GUITAR", "OCEAN"] (by decide)
  exact ⟨h.1, h.2.1, h.2.2.2.1, h.2.2.2.2.1, h.2.2.2.2.2.2.2 Team.RED⟩

/-- Witness for C1: on the example board, guessing the assassin word YACHT under
clue BEACH, 2 ends the game for BLUE with stop reason assassin. -/
theorem apply_turn_assassin_ends_game_witness :
    (apply_turn exState .RED "BEACH" 2 ["YACHT"]).2.stopped_reason = .assassin ∧
    (apply_turn exState .RED "BEACH" 2 ["YACHT"]).2.game_over = true ∧
    (apply_turn exState .RED "BEACH" 2 ["YACHT"]).2.winner = some (other_team .RED) ∧
    (apply_turn exState .RED "BEACH" 2 ["YACHT"]).2.loser = some .RED ∧
    ∃ pre a, (apply_turn exState .RED "BEACH" 2 ["YACHT"]).2.applied = pre ++ [a] ∧
      a.card_type = CardType.ASSASSIN ∧ ∀ b ∈ pre, b.card_type ≠ CardType.ASSASSIN :=
  apply_turn_assassin_ends_game exState .RED "BEACH" 2 ["YACHT"] (by decide)

/-! Legality filter, legality.py. -/

/-- legality.py _BANNED_CLUES. -/
def bannedClues : List String :=
  ["NONE", "NIL", "ZERO", "STOP", "PASS", "SKIP",
   "LEFT", "RIGHT", "TOP", "BOTTOM", "FIRST", "SECOND", "THIRD"]

/-- legality.py normalize_token: keep ASCII letters only and uppercase them. -/
def normalize_token (s : String) : String :=
  String.mk ((s.data.filter Char.isAlpha).map Char.toUpper)

/-- A character allowed after the first position of a single-word clue:
an ASCII letter or an apostrophe. -/
def isClueTailChar (c : Char) : Bool := c.isAlpha || c == Char.ofNat 39

/-- legality.py is_single_word: the stripped clue matches the pattern of one
letter followed by up to 31 letters or apostrophes. -/
def is_single_word (clue : String) : Bool :=
  match (pyStrip clue).data with
  | [] => false
  | c :: rest => c.isAlpha && decide (rest.length ≤ 31) && rest.all isClueTailChar

/-- Whether the first list is a prefix of the second, over characters. -/
def listIsPrefixOf : List Char → List Char → Bool
  | [], _ => true
  | _ :: _, [] => false
  | a :: xs, b :: ys => a == b && listIsPrefixOf xs ys

/-- Python substring containment x in y, over character lists of x scanned along y. -/
def listSubstr (needle : List Char) : List Char → Bool
  | [] => listIsPrefixOf needle []
  | c :: t => listIsPrefixOf needle (c :: t) || listSubstr needle t

/-- Python x in y on strings. -/
def pyIn (x y : String) : Bool := listSubstr x.data y.data

/-- The per-board-word loop of legality.py is_legal_clue: the first board word
triggering the exact-match, substring or plural check determines the reason. -/
def legalBoardLoop (clue_norm : String) : List String → Bool × String
  | [] => (true, "ok")
  | w_raw :: rest =>
    let w_norm := normalize_token w_raw
    if clue_norm = w_norm then
      (false, "matches_board_word:" ++ w_raw)
    else if clue_norm ≠ "" ∧ w_norm ≠ "" ∧
        (pyIn clue_norm w_norm = true ∨ pyIn w_norm clue_norm = true) then
      (false, "substring_overlap:" ++ w_raw)
    else if clue_norm ++ "S" = w_norm ∨ w_norm ++ "S" = clue_norm then
      (false, "plural_variant:" ++ w_raw)
    else
      legalBoardLoop clue_norm rest

/-- legality.py is_legal_clue. -/
def is_legal_clue (clue : String) (board_words : List String) : Bool × String :=
  let clue_raw := pyStrip clue
  if clue_raw = "" then (false, "empty")
  else if ¬ is_single_word clue_raw then (false, "not_single_word")
  else
    let clue_norm := normalize_token clue_raw
    if clue_norm = "" then (false, "no_letters")
    else if clue_norm ∈ bannedClues then (false, "banned_meta_word")
    else legalBoardLoop clue_norm board_words

/-- If some board word triggers one of the three per-word checks against the
normalised clue, the legality loop rejects, whatever the other words are. -/
theorem legalBoardLoop_mem_false (cn : String) :
    ∀ (ws : List String) (w : String), w ∈ ws →
      (cn = normalize_token w ∨
       (cn ≠ "" ∧ normalize_token w ≠ "" ∧
        (pyIn cn (normalize_token w) = true ∨ pyIn (normalize_token w) cn = true)) ∨
       (cn ++ "S" = normalize_token w ∨ normalize_token w ++ "S" = cn)) →
      (legalBoardLoop cn ws).1 = false := by
  intro ws
  induction ws with
  | nil => intro w hmem _; exact absurd hmem (List.not_mem_nil w)
  | cons w' rest ih =>
    intro w hmem htrig
    simp only [legalBoardLoop]
    split
    · rfl
    · split
      · rfl
      · split
        · rfl
        · rcases List.mem_cons.mp hmem with rfl | hmem'
          · rename_i h1 h2 h3
            rcases htrig with ht | ht | ht
            · exact absurd ht h1
            · exact absurd ht h2
            · exact absurd ht h3
          · exact ih w hmem' htrig

/-- Counterexample for C5: with board word CAT, the clue CATS is rejected as
substring_overlap:CAT (the substring check fires before the plural check),
not as plural_variant:CAT as the claim states. -/
theorem is_legal_clue_cats_counterexample :
    is_legal_clue "CATS" ["CAT"] ≠ (false, "plural_variant:CAT") ∧
    is_legal_clue "CATS" ["CAT"] = (false, "substring_overlap:CAT") := by
  constructor
  · decide
  · decide

/-- C5 (amended): for every board-word list containing CAT, both CATS and CATNIP
are rejected; on the single-word board CAT both are rejected with reason
substring_overlap:CAT, since CAT is a substring of either clue and the substring
check precedes (and subsumes) the plural-variant check. -/
theorem is_legal_clue_cat_rejections (ws : List String) (h : "CAT" ∈ ws) :
    (is_legal_clue "CATS" ws).1 = false ∧
    (is_legal_clue "CATNIP" ws).1 = false ∧
    is_legal_clue "CATS" ["CAT"] = (false, "substring_overlap:CAT") ∧
    is_legal_clue "CATNIP" ["CAT"] = (false, "substring_overlap:CAT") := by
  refine ⟨?_, ?_, by decide, by decide⟩
  · have hloop := legalBoardLoop_mem_false "CATS" ws "CAT" h (by decide)
    show (legalBoardLoop "CATS" ws).1 = false
    exact hloop
  · have hloop := legalBoardLoop_mem_false "CATNIP" ws "CAT" h (by decide)
    show (legalBoardLoop "CATNIP" ws).1 = false
    exact hloop

/-- Witness for C5 (amended): instantiated on a two-word board containing CAT. -/
theorem is_legal_clue_cat_rejections_witness :
    (is_legal_clue "CATS" ["DOG", "CAT"]).1 = false ∧
    (is_legal_clue "CATNIP" ["DOG", "CAT"]).1 = false ∧
    is_legal_clue "CATS" ["CAT"] = (false, "substring_overlap:CAT") ∧
    is_legal_clue "CATNIP" ["CAT"] = (false, "substring_overlap:CAT") :=
  is_legal_clue_cat_rejections ["DOG", "CAT"] (by decide)

/-! Candidate selection, agent.py TeamAgent.take_turn step 4. Float statistics
are modelled as rationals; Python compares key tuples lexicographically. -/

/-- agent.py Candidate (the opaque raw JSON blob is not modelled). -/
structure Candidate where
  clue : String
  number : Int
  intended_targets : Option (List String) := none
  danger_words : Option (List String) := none
deriving DecidableEq, Repr

/-- agent.py CandidateEvalSample (the serialised outcome dict is not modelled). -/
structure CandidateEvalSample where
  guesses : List String
  confidences : List Rat
  utility : Rat
deriving DecidableEq, Repr

/-- agent.py CandidateEvaluation. -/
structure CandidateEvaluation where
  candidate : Candidate
  samples : List CandidateEvalSample
  mean_utility : Rat
  std_utility : Rat
  selection_score : Rat
deriving DecidableEq, Repr

/-- The sort key (selection_score, mean_utility, -std_utility) used by the
max call in take_turn, as a lexicographically ordered triple. -/
def evalKey (e : CandidateEvaluation) : Lex (Rat × Lex (Rat × Rat)) :=
  toLex (e.selection_score, toLex (e.mean_utility, -e.std_utility))

/-- Python max(evals, key=...) over candidate evaluations: scan left to right
and replace the current best only when strictly greater, so the first maximal
element wins ties. Returns none on the empty list (Python max raises). -/
def pickBest (evals : List CandidateEvaluation) : Option CandidateEvaluation :=
  match evals with
  | [] => none
  | e :: rest =>
    some (rest.foldl (fun best x => if evalKey best < evalKey x then x else best) e)

/-- The fold underlying pickBest returns the first element of acc :: rest whose
key is maximal: nothing is strictly greater, and everything earlier is strictly
smaller. -/
theorem pickBestFoldl_spec :
    ∀ (rest : List CandidateEvaluation) (acc : CandidateEvaluation),
      ∃ (i : Nat) (hi : i < (acc :: rest).length),
        rest.foldl (fun best x => if evalKey best < evalKey x then x else best) acc =
          (acc :: rest).get ⟨i, hi⟩ ∧
        (∀ (j : Nat) (hj : j < (acc :: rest).length),
          evalKey ((acc :: rest).get ⟨j, hj⟩) ≤ evalKey ((acc :: rest).get ⟨i, hi⟩)) ∧
        (∀ (j : Nat) (hj : j < i),
          evalKey ((acc :: rest).get ⟨j, Nat.lt_trans hj hi⟩) <
            evalKey ((acc :: rest).get ⟨i, hi⟩)) := by
  intro rest
  induction rest with
  | nil =>
    intro acc
    refine ⟨0, by simp, by simp, ?_, ?_⟩
    · intro j hj
      match j with
      | 0 => simp
    · intro j hj
      exact absurd hj (Nat.not_lt_zero j)
  | cons x rest ih =>
    intro acc
    by_cases hlt : evalKey acc < evalKey x
    · obtain ⟨i', hi', heq, hmax, hfirst⟩ := ih x
      refine ⟨i' + 1, by simpa using hi', ?_, ?_, ?_⟩
      · simpa [List.foldl_cons, if_pos hlt] using heq
      · intro j hj
        match j with
        | 0 =>
          exact le_of_lt (lt_of_lt_of_le hlt (by simpa using hmax 0 (by simp)))
        | j' + 1 =>
          simpa using hmax j' (by simpa using hj)
      · intro j hj
        match j with
        | 0 =>
          exact lt_of_lt_of_le hlt (by simpa using hmax 0 (by simp))
        | j' + 1 =>
          exact hfirst j' (by omega)
    · obtain ⟨i', hi', heq, hmax, hfirst⟩ := ih acc
      have hxle : evalKey x ≤ evalKey acc := le_of_not_lt hlt
      have haccle : evalKey acc ≤
          evalKey ((acc :: rest).get ⟨i', hi'⟩) := by
        simpa using hmax 0 (by simp)
      match i', hi' with
      | 0, hi' =>
        refine ⟨0, by simp, ?_, ?_, ?_⟩
        · simpa [List.foldl_cons, if_neg hlt] using heq
        · intro j hj
          match j with
          | 0 => simp
          | 1 => exact hxle.trans haccle
          | j' + 2 =>
            have := hmax (j' + 1) (by simpa using hj)
            exact this.trans haccle
        · intro j hj
          exact absurd hj (Nat.not_lt_zero j)
      | k + 1, hi' =>
        refine ⟨k + 2, by simpa using hi', ?_, ?_, ?_⟩
        · simpa [List.foldl_cons, if_neg hlt] using heq
        · intro j hj
          match j with
          | 0 => simpa using hmax 0 (by simp)
          | 1 =>
            exact le_trans hxle (by simpa using hmax 0 (by simp))
          | j' + 2 =>
            simpa using hmax (j' + 1) (by simpa using hj)
        · intro j hj
          match j with
          | 0 => simpa using hfirst 0 (by omega)
          | 1 =>
            exact lt_of_le_of_lt hxle (by simpa using hfirst 0 (by omega))
          | j' + 2 =>
            simpa using hfirst (j' + 1) (by omega)

/-- C6: on every non-empty evaluation list, take_turn's max call picks the first
element maximising the lexicographic key (selection_score, mean_utility,
-std_utility): no element's key strictly exceeds the chosen one's, and every
earlier element's key is strictly below it, so equal-key candidates lose to the
earlier index and ties on selection score are broken by higher mean and then
lower standard deviation. -/
theorem pickBest_first_argmax (evals : List CandidateEvaluation) (h : evals ≠ []) :
    ∃ (i : Nat) (hi : i < evals.length),
      pickBest evals = some (evals.get ⟨i, hi⟩) ∧
      (∀ (j : Nat) (hj : j < evals.length),
        evalKey (evals.get ⟨j, hj⟩) ≤ evalKey (evals.get ⟨i, hi⟩)) ∧
      (∀ (j : Nat) (hj : j < i),
        evalKey (evals.get ⟨j, Nat.lt_trans hj hi⟩) < evalKey (evals.get ⟨i, hi⟩)) := by
  match evals, h with
  | e :: rest, _ =>
    obtain ⟨i, hi, heq, hmax, hfirst⟩ := pickBestFoldl_spec rest e
    exact ⟨i, hi, by simpa [pickBest] using congrArg some heq, hmax, hfirst⟩

/-- Two example candidate evaluations with identical statistics, demonstrating
the earlier-index tie-break. -/
def exEvalA : CandidateEvaluation := ⟨⟨"ALPHA", 2, none, none⟩, [], 2, 1, 1⟩

/-- Second example candidate evaluation, statistically identical to the first. -/
def exEvalB : CandidateEvaluation := ⟨⟨"BRAVO", 2, none, none⟩, [], 2, 1, 1⟩

/-- Witness for C6: on two statistically identical candidates the max call picks
the earlier one. -/
theorem pickBest_first_argmax_witness :
    (∃ (i : Nat) (hi : i < ([exEvalA, exEvalB] : List CandidateEvaluation).length),
      pickBest [exEvalA, exEvalB] = some (([exEvalA, exEvalB] :
          List CandidateEvaluation).get ⟨i, hi⟩) ∧
      (∀ (j : Nat) (hj : j < ([exEvalA, exEvalB] : List CandidateEvaluation).length),
        evalKey (([exEvalA, exEvalB] : List CandidateEvaluation).get ⟨j, hj⟩) ≤
          evalKey (([exEvalA, exEvalB] : List CandidateEvaluation).get ⟨i, hi⟩)) ∧
      (∀ (j : Nat) (hj : j < i),
        evalKey (([exEvalA, exEvalB] : List CandidateEvaluation).get
            ⟨j, Nat.lt_trans hj hi⟩) <
          evalKey (([exEvalA, exEvalB] : List CandidateEvaluation).get ⟨i, hi⟩))) ∧
    pickBest [exEvalA, exEvalB] = some exEvalA :=
  ⟨pickBest_first_argmax [exEvalA, exEvalB] (by decide), by decide⟩

/-! Guesser output parsing and sanitisation, agent.py _parse_guesser_output and
_sanitize_guesses, as called from take_turn step 5 and _evaluate_candidate. -/

/-- One entry of the guesses array in the parsed guesser JSON, modelling a dict
holding a word string and a confidence number. -/
structure GuessItem where
  word : String
  confidence : Rat
deriving DecidableEq, Repr

/-- agent.py _parse_guesser_output: normalise each word with strip().upper(),
clamp the confidence to the unit interval, and keep only non-empty words. -/
def parse_guesser_output : List GuessItem → List String × List Rat
  | [] => ([], [])
  | item :: rest =>
    let w := normGuess item.word
    let c := max 0 (min 1 item.confidence)
    let pr := parse_guesser_output rest
    if w = "" then pr else (w :: pr.1, c :: pr.2)

/-- The for-loop of agent.py _sanitize_guesses; as in the source, a guess is
recorded in the seen set exactly when it is appended to the output, so the
output length equals the seen-set growth, and the break on reaching max_allowed
happens after appending. -/
def sanitizeLoop (max_allowed : Int) : List String → List String → List String
  | [], _ => []
  | g :: rest, seen =>
    let gg := normGuess g
    if gg = "" ∨ gg ∈ seen then sanitizeLoop max_allowed rest seen
    else if max_allowed ≤ (seen.length : Int) + 1 then [gg]
    else gg :: sanitizeLoop max_allowed rest (gg :: seen)

/-- agent.py _sanitize_guesses. -/
def sanitize_guesses (guesses : List String) (max_allowed : Int) : List String :=
  sanitizeLoop max_allowed guesses []

/-- The guess pipeline applied to one guesser response in take_turn step 5 and in
each _evaluate_candidate rollout: parse, then sanitise with
max_allowed = min(number + 1, len(unrevealed)). -/
def sanitizedGuesses (items : List GuessItem) (number : Int)
    (unrevealed : List String) : List String :=
  sanitize_guesses (parse_guesser_output items).1
    (min (number + 1) (unrevealed.length : Int))

/-- ASCII uppercasing is idempotent on characters. -/
theorem charToUpper_idem (c : Char) : c.toUpper.toUpper = c.toUpper := by
  unfold Char.toUpper
  by_cases h : c.toNat ≥ 97 ∧ c.toNat ≤ 122
  · rw [if_pos h]
    have hval : Char.isValidCharNat (c.toNat - 32) := Or.inl (by omega)
    have htn : (Char.ofNat (c.toNat - 32)).toNat = c.toNat - 32 := by
      rw [Char.ofNat, dif_pos hval]
      rfl
    rw [if_neg]
    rw [htn]
    omega
  · rw [if_neg h, if_neg h]

/-- Guess normalisation produces fully uppercased strings. -/
theorem pyUpper_normGuess (s : String) : pyUpper (normGuess s) = normGuess s := by
  show String.mk _ = _
  simp only [normGuess, pyUpper, List.map_map]
  congr 1
  exact List.map_congr_left (fun c _ => charToUpper_idem c)

/-- Every parsed guess is the normalisation of some item's word and is non-empty. -/
theorem parse_guesser_output_mem :
    ∀ (items : List GuessItem) (g : String), g ∈ (parse_guesser_output items).1 →
      ∃ it ∈ items, g = normGuess it.word ∧ g ≠ "" := by
  intro items
  induction items with
  | nil => intro g hg; simp [parse_guesser_output] at hg
  | cons item rest ih =>
    intro g hg
    simp only [parse_guesser_output] at hg
    split at hg
    · obtain ⟨it, hit, h1, h2⟩ := ih g hg
      exact ⟨it, List.mem_cons_of_mem item hit, h1, h2⟩
    · rename_i hw
      rcases List.mem_cons.mp hg with rfl | hg'
      · exact ⟨item, List.mem_cons_self item rest, rfl, hw⟩
      · obtain ⟨it, hit, h1, h2⟩ := ih g hg'
        exact ⟨it, List.mem_cons_of_mem item hit, h1, h2⟩

/-- Every sanitised guess is the normalisation of some input guess, is non-empty,
and was not in the seen set at entry. -/
theorem sanitizeLoop_mem (ms : Int) :
    ∀ (gs seen : List String) (g : String), g ∈ sanitizeLoop ms gs seen →
      ∃ x ∈ gs, g = normGuess x ∧ g ≠ "" ∧ g ∉ seen := by
  intro gs
  induction gs with
  | nil => intro seen g hg; simp [sanitizeLoop] at hg
  | cons x rest ih =>
    intro seen g hg
    simp only [sanitizeLoop] at hg
    split at hg
    · obtain ⟨y, hy, h1, h2, h3⟩ := ih seen g hg
      exact ⟨y, List.mem_cons_of_mem x hy, h1, h2, h3⟩
    · rename_i hcond
      push_neg at hcond
      split at hg
      · simp only [List.mem_singleton] at hg
        subst hg
        exact ⟨x, List.mem_cons_self x rest, rfl, hcond.1, hcond.2⟩
      · rcases List.mem_cons.mp hg with rfl | hg'
        · exact ⟨x, List.mem_cons_self x rest, rfl, hcond.1, hcond.2⟩
        · obtain ⟨y, hy, h1, h2, h3⟩ := ih _ g hg'
          refine ⟨y, List.mem_cons_of_mem x hy, h1, h2, ?_⟩
          intro hc
          exact h3 (List.mem_cons_of_mem _ hc)

/-- The sanitised list has no duplicates and avoids the seen set. -/
theorem sanitizeLoop_nodup (ms : Int) :
    ∀ (gs seen : List String),
      (sanitizeLoop ms gs seen).Nodup ∧ ∀ g ∈ sanitizeLoop ms gs seen, g ∉ seen := by
  intro gs
  induction gs with
  | nil => intro seen; simp [sanitizeLoop]
  | cons x rest ih =>
    intro seen
    simp only [sanitizeLoop]
    split
    · exact ih seen
    · rename_i hcond
      push_neg at hcond
      split
      · refine ⟨List.nodup_singleton _, ?_⟩
        intro g hg
        simp only [List.mem_singleton] at hg
        subst hg
        exact hcond.2
      · obtain ⟨hnd, hns⟩ := ih (normGuess x :: seen)
        refine ⟨List.nodup_cons.mpr ⟨?_, hnd⟩, ?_⟩
        · intro hc
          exact hns _ hc (List.mem_cons_self _ _)
        · intro g hg
          rcases List.mem_cons.mp hg with rfl | hg'
          · exact hcond.2
          · intro hc
            exact hns g hg' (List.mem_cons_of_mem _ hc)

/-- Length bound for the sanitising loop: at most max_allowed minus the seen-set
size, except that one guess can always slip through because the break happens
after appending. -/
theorem sanitizeLoop_length (ms : Int) :
    ∀ (gs seen : List String),
      ((sanitizeLoop ms gs seen).length : Int) ≤ max (ms - seen.length) 1 := by
  intro gs
  induction gs with
  | nil => intro seen; simp [sanitizeLoop]
  | cons x rest ih =>
    intro seen
    simp only [sanitizeLoop]
    split
    · exact ih seen
    · split
      · simp
      · rename_i hbreak
        push_neg at hbreak
        have := ih (normGuess x :: seen)
        simp only [List.length_cons] at this ⊢
        have hmax : max (ms - (seen.length + 1 : Nat)) 1 = ms - seen.length - 1 := by
          rw [max_eq_left]
          · push_cast
            ring
          · push_cast
            omega
        rw [hmax] at this
        have hge : (2 : Int) ≤ ms - seen.length := by omega
        rw [max_eq_left (by omega)]
        push_cast
        omega

/-- C7 (amended): every sanitised guess list is fully uppercase with no empty
strings and no duplicates; its length is bounded by min(number + 1, len
(unrevealed)) whenever that bound is at least one (and by one more than the
bound in general, since the break fires only after appending); and, provided
every response word lies in the unrevealed list (as the json_schema enum
guarantees) and unrevealed words are normalisation-invariant, every sanitised
guess lies in the pre-turn unrevealed word list. Without the enum assumption the
membership clause fails, see the counterexample. -/
theorem sanitized_guesses_spec (items : List GuessItem) (number : Int)
    (unrevealed : List String)
    (hclean : ∀ w ∈ unrevealed, normGuess w = w) :
    (∀ g ∈ sanitizedGuesses items number unrevealed, pyUpper g = g ∧ g ≠ "") ∧
    (sanitizedGuesses items number unrevealed).Nodup ∧
    (1 ≤ min (number + 1) (unrevealed.length : Int) →
      ((sanitizedGuesses items number unrevealed).length : Int) ≤
        min (number + 1) (unrevealed.length : Int)) ∧
    ((sanitizedGuesses items number unrevealed).length : Int) ≤
      max (min (number + 1) (unrevealed.length : Int)) 1 ∧
    ((∀ it ∈ items, it.word ∈ unrevealed) →
      ∀ g ∈ sanitizedGuesses items number unrevealed, g ∈ unrevealed) := by
  refine ⟨?_, ?_, ?_, ?_, ?_⟩
  · intro g hg
    obtain ⟨x, _, rfl, hne, _⟩ := sanitizeLoop_mem _ _ _ g hg
    exact ⟨pyUpper_normGuess x, hne⟩
  · exact (sanitizeLoop_nodup _ _ _).1
  · intro hmin
    have := sanitizeLoop_length (min (number + 1) (unrevealed.length : Int))
      (parse_guesser_output items).1 []
    simp only [List.length_nil] at this
    calc ((sanitizedGuesses items number unrevealed).length : Int)
        ≤ max (min (number + 1) (unrevealed.length : Int) - (0 : Nat)) 1 := this
      _ ≤ min (number + 1) (unrevealed.length : Int) := by
          push_cast
          omega
  · have := sanitizeLoop_length (min (number + 1) (unrevealed.length : Int))
      (parse_guesser_output items).1 []
    simp only [List.length_nil] at this
    calc ((sanitizedGuesses items number unrevealed).length : Int)
        ≤ max (min (number + 1) (unrevealed.length : Int) - (0 : Nat)) 1 := this
      _ ≤ max (min (number + 1) (unrevealed.length : Int)) 1 := by
          push_cast
          omega
  · intro henum g hg
    obtain ⟨x, hx, rfl, _, _⟩ := sanitizeLoop_mem _ _ _ g hg
    obtain ⟨it, hit, rfl, _⟩ := parse_guesser_output_mem items x hx
    rw [hclean it.word (henum it hit), hclean it.word (henum it hit)]
    exact henum it hit

/-- Counterexample for C7: a guesser response naming a word outside the
unrevealed list survives parsing and sanitisation unchanged, so the sanitised
guesses are not always contained in the pre-turn unrevealed word list. -/
theorem sanitized_guesses_membership_counterexample :
    sanitizedGuesses [⟨"zebra", 1⟩] 1 ["APPLE", "BEACH"] = ["ZEBRA"] ∧
    "ZEBRA" ∉ (["APPLE", "BEACH"] : List String) := by
  constructor
  · decide
  · decide

/-- Witness for C7 (amended): a response with a duplicate and an off-case word,
all drawn from the unrevealed enum, sanitises to an uppercase duplicate-free
sublist of the unrevealed words. -/
theorem sanitized_guesses_spec_witness :
    (∀ g ∈ sanitizedGuesses [⟨"APPLE", 1⟩, ⟨"APPLE", 1⟩, ⟨"BEACH", 1⟩] 1
        ["APPLE", "BEACH", "CANDLE"], pyUpper g = g ∧ g ≠ "") ∧
    (sanitizedGuesses [⟨"APPLE", 1⟩, ⟨"APPLE", 1⟩, ⟨"BEACH", 1⟩] 1
      ["APPLE", "BEACH", "CANDLE"]).Nodup ∧
    (1 ≤ min ((1 : Int) + 1) ((["APPLE", "BEACH", "CANDLE"] : List String).length : Int) →
      ((sanitizedGuesses [⟨"APPLE", 1⟩, ⟨"APPLE", 1⟩, ⟨"BEACH", 1⟩] 1
          ["APPLE", "BEACH", "CANDLE"]).length : Int) ≤
        min ((1 : Int) + 1) ((["APPLE", "BEACH", "CANDLE"] : List String).length : Int)) ∧
    ((sanitizedGuesses [⟨"APPLE", 1⟩, ⟨"APPLE", 1⟩, ⟨"BEACH", 1⟩] 1
        ["APPLE", "BEACH", "CANDLE"]).length : Int) ≤
      max (min ((1 : Int) + 1)
        ((["APPLE", "BEACH", "CANDLE"] : List String).length : Int)) 1 ∧
    ((∀ it ∈ ([⟨"APPLE", 1⟩, ⟨"APPLE", 1⟩, ⟨"BEACH", 1⟩] : List GuessItem),
        it.word ∈ (["APPLE", "BEACH", "CANDLE"] : List String)) →
      ∀ g ∈ sanitizedGuesses [⟨"APPLE", 1⟩, ⟨"APPLE", 1⟩, ⟨"BEACH", 1⟩] 1
        ["APPLE", "BEACH", "CANDLE"], g ∈ (["APPLE", "BEACH", "CANDLE"] : List String)) :=
  sanitized_guesses_spec [⟨"APPLE", 1⟩, ⟨"APPLE", 1⟩, ⟨"BEACH", 1⟩] 1
    ["APPLE", "BEACH", "CANDLE"] (by decide)

/-! The LLM client retry loop, codenames_llm_bench openai_responses.py
OpenAIResponsesClient.create_json and extract_output_text. JSON parsing of the
assistant text is not modelled; what matters for the claims is which responses
make _parse_response raise and how the attempt loop reacts. -/

/-- One content part of an assistant message in a Responses API payload. -/
inductive ContentPart where
  | output_text (text : String)
  | refusal (text : String)
  | other
deriving DecidableEq, Repr

/-- One item of the output array; isAssistantMessage models
type == message and role == assistant. -/
structure OutputItem where
  isAssistantMessage : Bool
  content : List ContentPart
deriving DecidableEq, Repr

/-- The fields of the response JSON consulted by extract_output_text: the output
array and the optional top-level output_text fallback string. -/
structure RespData where
  output : List OutputItem
  output_text_field : Option String
deriving DecidableEq, Repr

/-- The inner content scan of extract_output_text: the first output_text part is
returned, a refusal part raises, other parts are skipped. -/
def extractContent : List ContentPart → Except String (Option String)
  | [] => .ok none
  | .output_text t :: _ => .ok (some t)
  | .refusal r :: _ => .error ("Model refusal: " ++ r)
  | .other :: rest => extractContent rest

/-- The outer item scan of extract_output_text over assistant messages. -/
def extractItems : List OutputItem → Except String (Option String)
  | [] => .ok none
  | item :: rest =>
    if item.isAssistantMessage then
      match extractContent item.content with
      | .error e => .error e
      | .ok (some t) => .ok (some t)
      | .ok none => extractItems rest
    else extractItems rest

/-- openai_responses.py extract_output_text. -/
def extract_output_text (d : RespData) : Except String String :=
  match extractItems d.output with
  | .error e => .error e
  | .ok (some t) => .ok t
  | .ok none =>
    match d.output_text_field with
    | some s => .ok s
    | none => .error "No output_text found in response JSON."

/-- openai_responses.py _parse_response, to the extent the claims need it: the
call raises exactly when extract_output_text raises (JSON salvage of the
returned text is not modelled), and otherwise yields the extracted text. -/
def parse_response (d : RespData) : Except String String :=
  extract_output_text d

/-- One iteration's view of the network: requests.post either raises a transport
error or yields an HTTP status code with a response body. -/
inductive HttpAttempt where
  | transportError
  | response (status : Nat) (data : RespData)

/-- The attempt loop of create_json over the per-attempt network oracle, one
list entry per available attempt (the retries budget). Returns the call result
or the final failure, together with the number of requests.post calls made.
Retryable statuses sleep and continue; any exception raised inside the try
block, including raise_for_status on 4xx and a refusal raised while parsing a
200 response, is caught by the blanket handler and retried. -/
def create_json_attempts : List HttpAttempt → Except String String × Nat
  | [] => (.error "OpenAI request failed after retries", 0)
  | a :: rest =>
    match a with
    | .transportError =>
      let p := create_json_attempts rest
      (p.1, p.2 + 1)
    | .response status d =>
      if status = 429 ∨ (500 ≤ status ∧ status < 600) then
        let p := create_json_attempts rest
        (p.1, p.2 + 1)
      else if 400 ≤ status then
        let p := create_json_attempts rest
        (p.1, p.2 + 1)
      else
        match parse_response d with
        | .ok v => (.ok v, 1)
        | .error _ =>
          let p := create_json_attempts rest
          (p.1, p.2 + 1)

/-- A well-formed 200 response whose only assistant content part is a refusal. -/
def refusalResponse (msg : String) : RespData :=
  ⟨[⟨true, [.refusal msg]⟩], none⟩

/-- Parsing a refusal-bearing response raises the refusal error. -/
theorem parse_response_refusal (msg : String) :
    parse_response (refusalResponse msg) = .error ("Model refusal: " ++ msg) := rfl

/-- Counterexample for C8: with the default budget of five attempts and a
refusal-bearing 200 response every time, the client makes five network attempts,
not one, and ends with the generic retries-exhausted error: the refusal raised
inside the try block is caught by the blanket handler and retried. -/
theorem create_json_refusal_retried_counterexample :
    (create_json_attempts (List.replicate 5
      (.response 200 (refusalResponse "no")))).2 = 5 ∧
    (create_json_attempts (List.replicate 5
      (.response 200 (refusalResponse "no")))).1 =
      .error "OpenAI request failed after retries" ∧
    extract_output_text (refusalResponse "no") = .error ("Model refusal: " ++ "no") := by
  refine ⟨rfl, rfl, rfl⟩

/-- C8 (amended): a refusal content part makes _parse_response raise, but the
raise happens inside the attempt loop's try block, so it is caught by the
blanket exception handler and retried like a transport error: when every
attempt returns a refusal-bearing 200 response, the client makes exactly one
network attempt per budget entry and finally raises the generic failure. -/
theorem create_json_refusal_retried (attempts : List HttpAttempt)
    (h : ∀ a ∈ attempts, ∃ msg, a = HttpAttempt.response 200 (refusalResponse msg)) :
    (create_json_attempts attempts).2 = attempts.length ∧
    ∃ e, (create_json_attempts attempts).1 = .error e := by
  induction attempts with
  | nil => exact ⟨rfl, "OpenAI request failed after retries", rfl⟩
  | cons a rest ih =>
    obtain ⟨h1, e, h2⟩ := ih (fun b hb => h b (List.mem_cons_of_mem a hb))
    obtain ⟨msg, rfl⟩ := h a (List.mem_cons_self a rest)
    constructor
    · show ((if (200 : Nat) = 429 ∨ (500 ≤ 200 ∧ 200 < 600) then _
        else if (400 : Nat) ≤ 200 then _ else _ : Except String String × Nat)).2 = _
      rw [if_neg (by omega), if_neg (by omega)]
      show (match parse_response (refusalResponse msg) with
        | .ok v => ((.ok v : Except String String), 1)
        | .error _ => ((create_json_attempts rest).1, (create_json_attempts rest).2 + 1)).2 = _
      rw [parse_response_refusal]
      simpa using h1
    · refine ⟨e, ?_⟩
      show ((if (200 : Nat) = 429 ∨ (500 ≤ 200 ∧ 200 < 600) then _
        else if (400 : Nat) ≤ 200 then _ else _ : Except String String × Nat)).1 = _
      rw [if_neg (by omega), if_neg (by omega)]
      show (match parse_response (refusalResponse msg) with
        | .ok v => ((.ok v : Except String String), 1)
        | .error _ => ((create_json_attempts rest).1, (create_json_attempts rest).2 + 1)).1 = _
      rw [parse_response_refusal]
      exact h2

/-- Witness for C8 (amended): three refusal responses lead to three attempts. -/
theorem create_json_refusal_retried_witness :
    (create_json_attempts (List.replicate 3
      (.response 200 (refusalResponse "nope")))).2 = 3 ∧
    ∃ e, (create_json_attempts (List.replicate 3
      (.response 200 (refusalResponse "nope")))).1 = .error e := by
  have h := create_json_refusal_retried
    (List.replicate 3 (.response 200 (refusalResponse "nope")))
    (fun a ha => ⟨"nope", List.eq_of_mem_replicate ha⟩)
  exact ⟨by simpa using h.1, h.2⟩

/-! The game runner, codenames_llm_bench runner.py play_game and run_match.
The LLM-backed TeamAgent.take_turn is the oracle: it transforms the state and
returns the turn outcome recorded in the turn log, or raises. -/

/-- The view of TeamAgent.take_turn used by the runner: it mutates the state,
applies the outcome recorded in the log, and may raise. -/
def TurnFn : Type :=
  GameState → Team → Except String (GameState × TurnOutcome)

/-- The game record assembled by play_game (per-turn logs reduced to the actual
outcomes the runner branches on). -/
structure GameRecord where
  board_id : String
  words : List String
  key : List CardType
  starting_team : Team
  winner : Option Team
  loser : Option Team
  end_reason : String
  turns : List TurnOutcome
deriving Repr

/-- The turn loop of runner.py play_game: pick the agent of the current team,
take the turn (propagating any exception), append the turn log, stop on
game_over with reason assassin or completed_agents, otherwise flip the team;
when the loop exhausts max_turns the reason stays unknown and the winner none. -/
def playGameLoop (redTurn blueTurn : TurnFn) :
    Nat → GameState → List TurnOutcome →
    Except String (List TurnOutcome × Option Team × Option Team × String)
  | 0, _, turns => .ok (turns, none, none, "unknown")
  | fuel + 1, state, turns =>
    let team := state.current_team
    let tf := if team = .RED then redTurn else blueTurn
    match tf state team with
    | .error e => .error e
    | .ok (state', outcome) =>
      let turns' := turns ++ [outcome]
      if outcome.game_over then
        .ok (turns', outcome.winner, outcome.loser,
          if outcome.stopped_reason = .assassin then "assassin" else "completed_agents")
      else
        playGameLoop redTurn blueTurn fuel
          { state' with current_team := other_team team } turns'

/-- runner.py play_game: initialise the state from the board, run the loop, and
overwrite the end reason with max_turns when no winner was recorded. There is no
try/except anywhere: an exception from a turn propagates to the caller. -/
def play_game (board : Board) (redTurn blueTurn : TurnFn) (max_turns : Nat) :
    Except String GameRecord :=
  match playGameLoop redTurn blueTurn max_turns (init_game_state board) [] with
  | .error e => .error e
  | .ok (turns, winner, loser, reason) =>
    .ok ⟨board.board_id, board.words, board.key, board.starting_team, winner, loser,
      (if winner = none then "max_turns" else reason), turns⟩

/-- One game of the run_match iteration: a board with the two agents playing it.
run_match's boards x replicates x (main, mirror) nesting is flattened into the
order in which play_game is called. -/
structure GameSpec where
  board : Board
  redTurn : TurnFn
  blueTurn : TurnFn

/-- The game loop of runner.py run_match: play each game in order, writing and
flushing one record per game; there is no try/except, so the first exception
aborts the loop, leaving only the records flushed before it (first component)
and escaping from run_match (second component). -/
def run_match_games (max_turns : Nat) : List GameSpec → List GameRecord × Option String
  | [] => ([], none)
  | g :: rest =>
    match play_game g.board g.redTurn g.blueTurn max_turns with
    | .error e => ([], some e)
    | .ok record =>
      let p := run_match_games max_turns rest
      (record :: p.1, p.2)

/-- Every record play_game produces carries one of the three end reasons
assassin, completed_agents or max_turns; in particular never the reason error. -/
theorem play_game_end_reasons (board : Board) (redTurn blueTurn : TurnFn)
    (max_turns : Nat) (record : GameRecord)
    (h : play_game board redTurn blueTurn max_turns = .ok record) :
    record.end_reason = "assassin" ∨ record.end_reason = "completed_agents" ∨
    record.end_reason = "max_turns" := by
  have hloop : ∀ (fuel : Nat) (state : GameState) (turns : List TurnOutcome)
      (t : List TurnOutcome) (w l : Option Team) (reason : String),
      playGameLoop redTurn blueTurn fuel state turns = .ok (t, w, l, reason) →
      w = none ∨ reason = "assassin" ∨ reason = "completed_agents" := by
    intro fuel
    induction fuel with
    | zero =>
      intro state turns t w l reason hr
      simp only [playGameLoop] at hr
      injection hr with hr'
      simp only [Prod.mk.injEq] at hr'
      exact Or.inl hr'.2.1.symm
    | succ fuel ih =>
      intro state turns t w l reason hr
      simp only [playGameLoop] at hr
      split at hr
      · exact absurd hr (by simp)
      · split at hr
        · injection hr with hr'
          simp only [Prod.mk.injEq] at hr'
          obtain ⟨-, -, -, hreason⟩ := hr'
          split at hreason
          · exact Or.inr (Or.inl hreason.symm)
          · exact Or.inr (Or.inr hreason.symm)
        · exact ih _ _ _ _ _ _ hr
  unfold play_game at h
  split at h
  · exact absurd h (by simp)
  · rename_i t w l reason heq
    injection h with hrec
    have := hloop max_turns (init_game_state board) [] t w l reason heq
    subst hrec
    show (if w = none then "max_turns" else reason) = "assassin" ∨
      (if w = none then "max_turns" else reason) = "completed_agents" ∨
      (if w = none then "max_turns" else reason) = "max_turns"
    by_cases hw : w = none
    · simp [hw]
    · rcases this with h' | h' | h'
      · exact absurd h' hw
      · rw [if_neg hw]
        exact Or.inl h'
      · rw [if_neg hw]
        exact Or.inr (Or.inl h')

/-- Counterexample for C9: a fatal turn error in the first game makes run_match
write no record at all (no end_reason error record) and the exception escapes,
so the second game, which on its own would have produced a record, never runs. -/
theorem run_match_error_escapes_counterexample :
    run_match_games 100
      [⟨exBoard, fun _ _ => .error "boom", fun _ _ => .error "boom"⟩,
       ⟨exBoard,
        fun st _ => .ok (st, ⟨.RED, "X", 1, 2, [], [], .assassin, true,
          some .BLUE, some .RED⟩),
        fun st _ => .ok (st, ⟨.RED, "X", 1, 2, [], [], .assassin, true,
          some .BLUE, some .RED⟩)⟩] = ([], some "boom") ∧
    (run_match_games 100
      [⟨exBoard,
        fun st _ => .ok (st, ⟨.RED, "X", 1, 2, [], [], .assassin, true,
          some .BLUE, some .RED⟩),
        fun st _ => .ok (st, ⟨.RED, "X", 1, 2, [], [], .assassin, true,
          some .BLUE, some .RED⟩)⟩]).2 = none := by
  exact ⟨rfl, rfl⟩

/-- C9 (amended): run_match never records a game with end_reason error - every
record it writes carries assassin, completed_agents or max_turns - and when a
fatal turn error occurs the exception escapes run_match with the failing game
unrecorded and the remaining games unplayed, so fewer records than games are
written. -/
theorem run_match_error_propagation (games : List GameSpec) (max_turns : Nat) :
    (∀ r ∈ (run_match_games max_turns games).1,
      r.end_reason = "assassin" ∨ r.end_reason = "completed_agents" ∨
      r.end_reason = "max_turns") ∧
    (∀ e, (run_match_games max_turns games).2 = some e →
      (run_match_games max_turns games).1.length < games.length) := by
  induction games with
  | nil =>
    constructor
    · intro r hr
      simp [run_match_games] at hr
    · intro e he
      simp [run_match_games] at he
  | cons g rest ih =>
    simp only [run_match_games]
    split
    · constructor
      · intro r hr
        simp at hr
      · intro e _
        simp only [List.length_nil, List.length_cons]
        omega
    · rename_i record hplay
      constructor
      · intro r hr
        rcases List.mem_cons.mp hr with rfl | hr'
        · exact play_game_end_reasons g.board g.redTurn g.blueTurn max_turns r hplay
        · exact ih.1 r hr'
      · intro e he
        simp only [List.length_cons]
        exact Nat.succ_lt_succ (ih.2 e he)

/-- Witness for C9 (amended): one erroring game yields zero records, fewer than
the one game attempted, and vacuously no record with a disallowed reason. -/
theorem run_match_error_propagation_witness :
    (∀ r ∈ (run_match_games 100
        [⟨exBoard, fun _ _ => .error "boom", fun _ _ => .error "boom"⟩]).1,
      r.end_reason = "assassin" ∨ r.end_reason = "completed_agents" ∨
      r.end_reason = "max_turns") ∧
    (run_match_games 100
      [⟨exBoard, fun _ _ => .error "boom", fun _ _ => .error "boom"⟩]).1.length < 1 := by
  have h := run_match_error_propagation
    [⟨exBoard, fun _ _ => .error "boom", fun _ _ => .error "boom"⟩] 100
  exact ⟨h.1, h.2 "boom" rfl⟩

/-! Candidate filtering and fallback in agent.py TeamAgent.take_turn steps 2
and the fallback of step 2, plus legality.py filter_legal_clues. Candidate
dicts are modelled by their clue and number fields; the analytic and raw fields
do not influence which clue reaches apply_turn. -/

/-- The gameplay-relevant fields of a candidate dict. -/
structure CandDict where
  clue : String
  number : Int
deriving DecidableEq, Repr

/-- legality.py filter_legal_clues: strip each clue, test it with is_legal_clue,
and partition into legal (with the stripped clue) and rejected-with-reason. -/
def filter_legal_clues : List CandDict → List String →
    List CandDict × List (CandDict × String)
  | [], _ => ([], [])
  | c :: rest, board_words =>
    let clue := pyStrip c.clue
    let res := is_legal_clue clue board_words
    let p := filter_legal_clues rest board_words
    if res.1 then ({ c with clue := clue } :: p.1, p.2)
    else (p.1, ({ c with clue := clue }, res.2) :: p.2)

/-- The number-range pass of take_turn: keep candidates whose number lies in
[1, min(9, remaining)]; the int() coercion failure branch does not arise because
numbers are typed integers in the embedding. -/
def filter_number_range (rem : Nat) : List CandDict →
    List CandDict × List (CandDict × String)
  | [] => ([], [])
  | c :: rest =>
    let p := filter_number_range rem rest
    if c.number < 1 then (p.1, (c, "number_lt_1") :: p.2)
    else if c.number > min 9 (rem : Int) then
      (p.1, (c, "number_gt_remaining") :: p.2)
    else (c :: p.1, p.2)

/-- agent.py _fallback_candidate: the stripped clue and number of the
low-temperature spymaster response when the call succeeds, else the hardcoded
candidate MYSTERY, 1; neither is passed through is_legal_clue here (the source
comment defers that to the caller). -/
def fallback_candidate (llm : Option CandDict) : CandDict :=
  match llm with
  | some parsed => { clue := pyStrip parsed.clue, number := parsed.number }
  | none => { clue := "MYSTERY", number := 1 }

/-- take_turn steps 2-3: legality filter, number filter, and on an empty result
the fallback candidate inserted as the whole legal list without any further
check. The clue later passed to apply_turn is the stripped clue of one of these
candidates. -/
def final_legal_candidates (cand_dicts : List CandDict) (board_words : List String)
    (rem : Nat) (fallback : CandDict) : List CandDict :=
  let legal := (filter_legal_clues cand_dicts board_words).1
  let final := (filter_number_range rem legal).1
  if final = [] then [fallback] else final

/-- The example board with the word MYSTERY on it (replacing QUEEN at index 16,
a BLUE card); distribution is unchanged. -/
def exBoardM : Board :=
  ⟨"board-000001",
   ["APPLE","BEACH","CANDLE","DOG","EAGLE","FOREST","GUITAR","HOUSE","ISLAND",
    "JACKET","KITE","LEMON","MOUNTAIN","NEEDLE","OCEAN","PIANO","MYSTERY",
    "RIVER","SNAKE","TIGER","UMBRELLA","VIOLIN","WHALE","XYLOPHONE","YACHT"],
   [.RED, .RED, .RED, .RED, .RED, .RED, .RED, .RED, .RED,
    .BLUE, .BLUE, .BLUE, .BLUE, .BLUE, .BLUE, .BLUE, .BLUE,
    .NEUTRAL, .NEUTRAL, .NEUTRAL, .NEUTRAL, .NEUTRAL, .NEUTRAL, .NEUTRAL,
    .ASSASSIN],
   Team.RED⟩

/-- C10 refuted (code bug): on a board containing the word MYSTERY, when no
candidate survives the filters and the fallback spymaster call fails, the
hardcoded fallback MYSTERY, 1 becomes the entire legal list without passing
through is_legal_clue, so the selection can only choose it (first and only
element for every statistic) and take_turn hands apply_turn a clue equal to a
board word, which is_legal_clue itself would have rejected as
matches_board_word. -/
theorem fallback_clue_equals_board_word :
    final_legal_candidates [] exBoardM.words 9 (fallback_candidate none) =
      [{ clue := "MYSTERY", number := 1 }] ∧
    "MYSTERY" ∈ exBoardM.words ∧
    is_legal_clue "MYSTERY" exBoardM.words =
      (false, "matches_board_word:MYSTERY") ∧
    (∀ (samples : List CandidateEvalSample) (m s sc : Rat),
      pickBest [⟨⟨"MYSTERY", 1, none, none⟩, samples, m, s, sc⟩] =
        some ⟨⟨"MYSTERY", 1, none, none⟩, samples, m, s, sc⟩) ∧
    (apply_turn (init_game_state exBoardM) .RED "MYSTERY" 1 ["LEMON"]).2.clue =
      "MYSTERY" := by
  refine ⟨by decide, by decide, by decide, ?_, by decide⟩
  intro samples m s sc
  rfl

end Codenames
